import Mathlib

/-!
Verification of the duration-bounded chunking algorithm and the resumable
batch orchestrator of `src/auto_sync_downloader.py`.

The Python code is shallowly embedded: timestamps and durations (Python
floats holding exact small values in all scenarios of interest) are
modelled as rationals, the `random.uniform` samples drawn once per chunk
are modelled as an injected stream `targets : ℕ → ℚ` consumed in order,
Python sets are `Finset String`, and the per-identifier download pipeline
is a pure function of an abstract fetch collaborator outcome.
-/

namespace AutoSync

/-- A transcript segment as supplied by the fetch collaborator:
the objects iterated over in `chunk_smart_duration` expose
`.start`, `.duration` and `.text`. -/
structure Segment where
  start : ℚ
  duration : ℚ
  text : String
deriving DecidableEq

/-- A chunk record as built at lines 231-238 of the source: the dict
`{chunk_id, start, end, duration, text, segments}`. -/
structure Chunk where
  chunk_id : ℕ
  start : ℚ
  «end» : ℚ
  duration : ℚ
  text : String
  segments : ℕ
deriving DecidableEq

/-- The inner admission loop of `chunk_smart_duration` (lines 202-227),
entered after the first segment of the chunk has already been admitted
(the `not chunk_segments` branch fires exactly once, on the first
iteration, and admits unconditionally; we inline that first admission at
the call site, so here `chunk_segments` is always non-empty).
`current_duration` is the accumulated sum of admitted segment durations.
Returns the further admitted segments and the unconsumed remainder.

Branches, in source order:
* `current_duration < min_duration` : admit unconditionally;
* `current_duration >= target_duration or new_duration > max_duration` :
  `break`, leaving the segment unconsumed;
* otherwise admit. -/
def takeChunkAux (min_duration max_duration target_duration : ℚ) :
    ℚ → List Segment → List Segment × List Segment
  | _, [] => ([], [])
  | current_duration, seg :: rest =>
    if current_duration < min_duration then
      let t := takeChunkAux min_duration max_duration target_duration
        (current_duration + seg.duration) rest
      (seg :: t.1, t.2)
    else if target_duration ≤ current_duration ∨
        max_duration < current_duration + seg.duration then
      ([], seg :: rest)
    else
      let t := takeChunkAux min_duration max_duration target_duration
        (current_duration + seg.duration) rest
      (seg :: t.1, t.2)

/-- The chunk record closed at lines 229-238 of the source, for the
constituent segments `first :: more` (`chunk_start = segments[i].start`
is the start of the first constituent segment). -/
def mkChunk (chunk_id : ℕ) (first : Segment) (more : List Segment) : Chunk :=
  let chunk_segments := first :: more
  let lastSeg := chunk_segments.getLast (List.cons_ne_nil first more)
  let chunk_end := lastSeg.start + lastSeg.duration
  { chunk_id := chunk_id
    start := first.start
    «end» := chunk_end
    duration := chunk_end - first.start
    text := String.intercalate " " (chunk_segments.map Segment.text)
    segments := chunk_segments.length }

/-- The outer `while i < len(segments)` loop of `chunk_smart_duration`
(lines 195-239), written with a fuel parameter to make the recursion
structural; every call site passes fuel at least the length of the
segment list, which makes the `0` case unreachable (each outer iteration
consumes at least the first remaining segment). Each iteration draws
the next target-duration sample (`random.uniform(min_duration,
max_duration)` in the source, modelled by `targets chunk_id`, one sample
per chunk in order), admits the first remaining segment unconditionally,
runs the inner admission loop, closes the chunk record and recurses on
the unconsumed remainder. Each produced chunk is paired with the list of
its constituent segments (`chunk_segments` in the source). -/
def chunkLoopF (min_duration max_duration : ℚ) (targets : ℕ → ℚ) :
    ℕ → ℕ → List Segment → List (Chunk × List Segment)
  | 0, _, _ => []
  | _ + 1, _, [] => []
  | fuel + 1, chunk_id, seg :: rest =>
    let t := takeChunkAux min_duration max_duration (targets chunk_id)
      seg.duration rest
    (mkChunk chunk_id seg t.1, seg :: t.1) ::
      chunkLoopF min_duration max_duration targets fuel (chunk_id + 1) t.2

/-- `chunk_smart_duration` together with, for each chunk, the list of its
constituent segments (the local `chunk_segments` of the source). -/
def chunk_runs (segments : List Segment) (min_duration max_duration : ℚ)
    (targets : ℕ → ℚ) : List (Chunk × List Segment) :=
  chunkLoopF min_duration max_duration targets segments.length 0 segments

/-- `chunk_smart_duration(segments, min_duration, max_duration)`
(lines 186-241 of the source), as a function of the injected
target-duration sample stream. -/
def chunk_smart_duration (segments : List Segment)
    (min_duration max_duration : ℚ) (targets : ℕ → ℚ) : List Chunk :=
  (chunk_runs segments min_duration max_duration targets).map Prod.fst

/-- Total duration of a list of segments (the value accumulated in
`current_duration` over admitted segments). -/
def sumDur (l : List Segment) : ℚ := (l.map Segment.duration).sum

/-- Adjacency of two consecutive segments in a gap- and overlap-free
transcript: the second starts exactly where the first ends. -/
def SegAdj (a b : Segment) : Prop := b.start = a.start + a.duration

instance : DecidableRel SegAdj := fun a b =>
  inferInstanceAs (Decidable (b.start = a.start + a.duration))

/-- The five-segment transcript of the spec's worked example. -/
def exampleSegments : List Segment :=
  [⟨0, 10, "a"⟩, ⟨10, 10, "b"⟩, ⟨20, 5, "c"⟩, ⟨25, 5, "d"⟩, ⟨30, 10, "e"⟩]

/-- A contiguous transcript whose second segment is admitted while the
accumulated duration is still below the floor, pushing the first chunk
past the ceiling although no single segment is oversized. -/
def overshootSegments : List Segment :=
  [⟨0, 10, "a"⟩, ⟨10, 25, "b"⟩, ⟨35, 10, "c"⟩]

@[simp] theorem sumDur_nil : sumDur [] = 0 := rfl

@[simp] theorem sumDur_cons (s : Segment) (l : List Segment) :
    sumDur (s :: l) = s.duration + sumDur l := by simp [sumDur]

/-- The inner admission loop splits its input: the admitted segments
followed by the unconsumed remainder are exactly the segments it was
given, in order. -/
theorem takeChunkAux_append (mn mx tgt : ℚ) (l : List Segment) :
    ∀ cur : ℚ,
      (takeChunkAux mn mx tgt cur l).1 ++ (takeChunkAux mn mx tgt cur l).2 = l := by
  induction l with
  | nil => intro cur; rfl
  | cons seg rest ih =>
    intro cur
    simp only [takeChunkAux]
    split_ifs with h1 h2
    · simp [ih]
    · rfl
    · simp [ih]

theorem takeChunkAux_rest_length (mn mx tgt cur : ℚ) (l : List Segment) :
    (takeChunkAux mn mx tgt cur l).2.length ≤ l.length := by
  have h := congrArg List.length (takeChunkAux_append mn mx tgt l cur)
  simp only [List.length_append] at h
  omega

/-- If the inner admission loop stopped with segments left unconsumed
(a `break`, rather than running out of input), the accumulated duration
had reached the floor: the `break` branch is only reachable when the
`current_duration < min_duration` test has failed. -/
theorem takeChunkAux_break_floor (mn mx tgt : ℚ) (l : List Segment) :
    ∀ cur : ℚ, (takeChunkAux mn mx tgt cur l).2 ≠ [] →
      mn ≤ cur + sumDur (takeChunkAux mn mx tgt cur l).1 := by
  induction l with
  | nil => intro cur h; simp [takeChunkAux] at h
  | cons seg rest ih =>
    intro cur h
    simp only [takeChunkAux] at h ⊢
    split_ifs at h ⊢ with h1 h2
    · have := ih (cur + seg.duration) (by simpa using h)
      simp only [sumDur_cons]
      linarith
    · simp only [sumDur_nil]
      linarith [not_lt.mp h1]
    · have := ih (cur + seg.duration) (by simpa using h)
      simp only [sumDur_cons]
      linarith

/-- Ceiling invariant of the inner admission loop: whenever it admitted
at least one segment, either the accumulated duration stayed within the
ceiling, or the final admitted segment was admitted by the
unconditional below-floor branch (so the accumulated duration before it
was below the floor). -/
theorem takeChunkAux_ceiling (mn mx tgt : ℚ) (l : List Segment) :
    ∀ cur : ℚ, (takeChunkAux mn mx tgt cur l).1 ≠ [] →
      cur + sumDur (takeChunkAux mn mx tgt cur l).1 ≤ mx ∨
      cur + sumDur (takeChunkAux mn mx tgt cur l).1.dropLast < mn := by
  induction l with
  | nil => intro cur h; simp [takeChunkAux] at h
  | cons seg rest ih =>
    intro cur h
    simp only [takeChunkAux] at h ⊢
    split_ifs at h ⊢ with h1 h2
    · rcases eq_or_ne (takeChunkAux mn mx tgt (cur + seg.duration) rest).1 [] with he | he
      · right
        simp [he]
        linarith
      · rcases ih (cur + seg.duration) he with hc | hc
        · left
          simp only [sumDur_cons]
          linarith
        · right
          rw [List.dropLast_cons_of_ne_nil he]
          simp only [sumDur_cons]
          linarith
    · simp at h
    · push_neg at h2
      rcases eq_or_ne (takeChunkAux mn mx tgt (cur + seg.duration) rest).1 [] with he | he
      · left
        simp [he]
        linarith [h2.2]
      · rcases ih (cur + seg.duration) he with hc | hc
        · left
          simp only [sumDur_cons]
          linarith
        · right
          rw [List.dropLast_cons_of_ne_nil he]
          simp only [sumDur_cons]
          linarith

/-- The outer loop consumes its input exactly: concatenating the
constituent-segment lists of all produced chunks, in chunk order, gives
back the input segment list. -/
theorem chunkLoopF_flatten (mn mx : ℚ) (targets : ℕ → ℚ) :
    ∀ (fuel cid : ℕ) (l : List Segment), l.length ≤ fuel →
      ((chunkLoopF mn mx targets fuel cid l).map Prod.snd).flatten = l := by
  intro fuel
  induction fuel with
  | zero =>
    intro cid l hl
    have : l = [] := List.length_eq_zero.mp (Nat.le_zero.mp hl)
    subst this
    rfl
  | succ fuel ih =>
    intro cid l hl
    cases l with
    | nil => rfl
    | cons seg rest =>
      simp only [chunkLoopF, List.map_cons, List.flatten_cons]
      have hlen : (takeChunkAux mn mx (targets cid) seg.duration rest).2.length ≤ fuel := by
        have := takeChunkAux_rest_length mn mx (targets cid) seg.duration rest
        simp only [List.length_cons] at hl
        omega
      rw [ih (cid + 1) _ hlen]
      simp [takeChunkAux_append mn mx (targets cid) rest seg.duration]

/-- C1 (confirmed). Partition: for every input sequence of segments and
bounds with `0 < min_duration ≤ max_duration`, `chunk_smart_duration`
partitions the input — the concatenation of each chunk's constituent
segments, taken in chunk order, equals the original segment sequence in
order, with no segment omitted, duplicated, or split. -/
theorem chunk_partition (segments : List Segment) (min_duration max_duration : ℚ)
    (targets : ℕ → ℚ) (hmin : 0 < min_duration) (hminmax : min_duration ≤ max_duration) :
    ((chunk_runs segments min_duration max_duration targets).map Prod.snd).flatten
      = segments :=
  chunkLoopF_flatten min_duration max_duration targets segments.length 0 segments le_rfl

/-- Witness for C1 at the worked-example transcript and the production
bounds 20 and 30. -/
theorem chunk_partition_w :
    (0:ℚ) < 20 ∧ (20:ℚ) ≤ 30 ∧
    ((chunk_runs exampleSegments 20 30 (fun _ => 22)).map Prod.snd).flatten
      = exampleSegments :=
  ⟨by norm_num, by norm_num,
    chunk_partition exampleSegments 20 30 (fun _ => 22) (by norm_num) (by norm_num)⟩

/-- For a contiguous non-empty run of segments, the recorded chunk span
(last segment end minus first segment start) equals the sum of the
segment durations. -/
theorem span_eq_sumDur : ∀ (l : List Segment) (h : l ≠ []), List.Chain' SegAdj l →
    (l.getLast h).start + (l.getLast h).duration - (l.head h).start = sumDur l
  | [], h, _ => absurd rfl h
  | [a], _, _ => by simp [sumDur]
  | a :: b :: t, _, hc => by
    rw [List.chain'_cons] at hc
    have hr := span_eq_sumDur (b :: t) (List.cons_ne_nil b t) hc.2
    rw [List.getLast_cons (List.cons_ne_nil b t), List.head_cons]
    rw [List.head_cons] at hr
    have hadj : b.start = a.start + a.duration := hc.1
    simp only [sumDur_cons] at *
    linarith

theorem mkChunk_duration (cid : ℕ) (first : Segment) (more : List Segment) :
    (mkChunk cid first more).duration =
      ((first :: more).getLast (List.cons_ne_nil first more)).start +
      ((first :: more).getLast (List.cons_ne_nil first more)).duration - first.start := rfl

/-- Floor and ceiling of every chunk of the outer loop except the last,
for contiguous input: the recorded duration reaches the floor, and it
respects the ceiling unless the final constituent segment was admitted
while the accumulated duration was still below the floor. -/
theorem chunkLoopF_floor_ceiling (mn mx : ℚ) (targets : ℕ → ℚ) (hmn : 0 < mn) :
    ∀ (fuel cid : ℕ) (l : List Segment), l.length ≤ fuel → List.Chain' SegAdj l →
      ∀ p ∈ (chunkLoopF mn mx targets fuel cid l).dropLast,
        mn ≤ p.1.duration ∧ (p.1.duration ≤ mx ∨ sumDur p.2.dropLast < mn) := by
  intro fuel
  induction fuel with
  | zero => intro cid l hl hc p hp; simp [chunkLoopF] at hp
  | succ fuel ih =>
    intro cid l hl hc p hp
    cases l with
    | nil => simp [chunkLoopF] at hp
    | cons seg rest =>
      simp only [chunkLoopF] at hp
      set t := takeChunkAux mn mx (targets cid) seg.duration rest with ht
      by_cases hrec : chunkLoopF mn mx targets fuel (cid + 1) t.2 = []
      · rw [hrec] at hp
        simp at hp
      · rw [List.dropLast_cons_of_ne_nil hrec] at hp
        have happ : (seg :: t.1) ++ t.2 = seg :: rest := by
          simpa using takeChunkAux_append mn mx (targets cid) rest seg.duration
        have hcsplit : List.Chain' SegAdj ((seg :: t.1) ++ t.2) := by
          rw [happ]; exact hc
        rw [List.chain'_append] at hcsplit
        rcases List.mem_cons.mp hp with hph | hpt
        · subst hph
          have ht2 : t.2 ≠ [] := by
            intro h0
            apply hrec
            rw [h0]
            cases fuel <;> rfl
          have hfloor := takeChunkAux_break_floor mn mx (targets cid) rest seg.duration ht2
          have hspan := span_eq_sumDur (seg :: t.1) (List.cons_ne_nil seg t.1) hcsplit.1
          rw [List.head_cons] at hspan
          have hdur : (mkChunk cid seg t.1).duration = sumDur (seg :: t.1) := by
            rw [mkChunk_duration]
            exact hspan
          constructor
          · rw [hdur, sumDur_cons]
            linarith
          · rcases eq_or_ne t.1 [] with h1 | h1
            · right
              simp [h1]
              exact hmn
            · rcases takeChunkAux_ceiling mn mx (targets cid) rest seg.duration h1 with hcl | hcr
              · left
                rw [hdur, sumDur_cons]
                linarith
              · right
                show sumDur (seg :: t.1).dropLast < mn
                rw [List.dropLast_cons_of_ne_nil h1, sumDur_cons]
                linarith
        · have hlen : t.2.length ≤ fuel := by
            have hrl : t.2.length ≤ rest.length := by
              rw [ht]
              exact takeChunkAux_rest_length mn mx (targets cid) seg.duration rest
            simp only [List.length_cons] at hl
            omega
          exact ih (cid + 1) t.2 hlen hcsplit.2.1 p hpt

/-- C2 (amended, proved). For every contiguous segment sequence (each
segment starts exactly where the previous one ends) and bounds
`0 < min_duration ≤ max_duration`, every chunk of `chunk_smart_duration`
except possibly the last has recorded duration at least `min_duration`,
and has recorded duration at most `max_duration` unless the total
duration of its constituent segments other than the last is below
`min_duration` (i.e. its final segment was admitted by the unconditional
below-floor branch; a single oversized segment is the special case where
that total is zero). -/
theorem chunk_floor_ceiling (segments : List Segment) (min_duration max_duration : ℚ)
    (targets : ℕ → ℚ) (hmin : 0 < min_duration) (hminmax : min_duration ≤ max_duration)
    (hadj : List.Chain' SegAdj segments) :
    ∀ p ∈ (chunk_runs segments min_duration max_duration targets).dropLast,
      min_duration ≤ p.1.duration ∧
      (p.1.duration ≤ max_duration ∨ sumDur p.2.dropLast < min_duration) :=
  chunkLoopF_floor_ceiling min_duration max_duration targets hmin
    segments.length 0 segments le_rfl hadj

/-- C2 counterexample. On the contiguous transcript with segment
durations 10, 25, 10 and bounds `min_duration = 20 ≤ max_duration = 30`
(target sample 25, inside the bounds), the first chunk — not the last —
has recorded duration 35 > 30 yet consists of two segments, so it is
not a single oversized segment: the claimed ceiling fails as stated. -/
theorem chunk_ceiling_counterexample :
    ∃ p ∈ (chunk_runs overshootSegments 20 30 (fun _ => 25)).dropLast,
      ¬(p.1.duration ≤ 30) ∧ p.1.segments ≠ 1 := by
  with_unfolding_all decide

/-- Witness for C2 at the worked-example transcript. -/
theorem chunk_floor_ceiling_w :
    ((0:ℚ) < 20 ∧ (20:ℚ) ≤ 30 ∧ List.Chain' SegAdj exampleSegments) ∧
    (∀ p ∈ (chunk_runs exampleSegments 20 30 (fun _ => 22)).dropLast,
      (20:ℚ) ≤ p.1.duration ∧ (p.1.duration ≤ 30 ∨ sumDur p.2.dropLast < 20)) :=
  ⟨⟨by norm_num, by norm_num, by simp [exampleSegments, List.chain'_cons, SegAdj]; norm_num⟩,
    chunk_floor_ceiling exampleSegments 20 30 (fun _ => 22) (by norm_num) (by norm_num)
      (by simp [exampleSegments, List.chain'_cons, SegAdj]; norm_num)⟩

/-- C6 counterexample. With the fixed target sample 22, the first chunk
of the worked-example transcript does not contain four segments: after
a, b, c the accumulated duration 25 has reached the target 22, so the
chunk closes before d. -/
theorem worked_example_counterexample :
    ¬(((chunk_smart_duration exampleSegments 20 30 (fun _ => 22)).head?).map Chunk.segments
        = some 4) := by
  with_unfolding_all decide

/-- C6 (amended, proved). For the worked-example segments with
`min_duration = 20`, `max_duration = 30` and fixed target sample 22,
the first chunk admits segments a, b, c (totalling 25 s) and the second
chunk starts at segment d (start 25). -/
theorem worked_example :
    (chunk_smart_duration exampleSegments 20 30 (fun _ => 22)).map
      (fun c => (c.text, c.start, c.duration)) = [("a b c", 0, 25), ("d e", 25, 15)] := by
  with_unfolding_all decide

/-- Every element of the outer loop's output, enumerated from the
starting chunk counter, is a chunk record built by `mkChunk` at its own
enumeration index from its non-empty constituent-segment list. -/
theorem chunkLoopF_shape (mn mx : ℚ) (targets : ℕ → ℚ) :
    ∀ (fuel : ℕ) (l : List Segment) (cid : ℕ),
      ∀ q ∈ (chunkLoopF mn mx targets fuel cid l).enumFrom cid,
        ∃ first more, q.2 = (mkChunk q.1 first more, first :: more) := by
  intro fuel
  induction fuel with
  | zero => intro l cid q hq; simp [chunkLoopF] at hq
  | succ fuel ih =>
    intro l cid q hq
    cases l with
    | nil => simp [chunkLoopF] at hq
    | cons seg rest =>
      simp only [chunkLoopF, List.enumFrom_cons] at hq
      rcases List.mem_cons.mp hq with h | h
      · subst h
        exact ⟨seg, _, rfl⟩
      · exact ih _ (cid + 1) q h

/-- C8 (confirmed). Every chunk record emitted by `chunk_smart_duration`
has `chunk_id` equal to its 0-based position in the output list, `start`
equal to the start of its first constituent segment, `end` equal to
start + duration of its last constituent segment, `duration` equal to
`end` minus `start`, `text` equal to the space-joined texts of its
constituent segments in order, and a segment count ≥ 1 equal to the
number of segments merged. -/
theorem chunk_record_invariant (segments : List Segment) (min_duration max_duration : ℚ)
    (targets : ℕ → ℚ) :
    ∀ q ∈ (chunk_runs segments min_duration max_duration targets).enum,
      q.2.1.chunk_id = q.1 ∧
      q.2.2 ≠ [] ∧
      (∀ h : q.2.2 ≠ [], q.2.1.start = (q.2.2.head h).start ∧
        q.2.1.«end» = (q.2.2.getLast h).start + (q.2.2.getLast h).duration) ∧
      q.2.1.duration = q.2.1.«end» - q.2.1.start ∧
      q.2.1.text = String.intercalate " " (q.2.2.map Segment.text) ∧
      q.2.1.segments = q.2.2.length ∧ 1 ≤ q.2.1.segments := by
  intro q hq
  obtain ⟨first, more, hq2⟩ :=
    chunkLoopF_shape min_duration max_duration targets segments.length segments 0 q
      (by simpa [List.enum] using hq)
  rw [hq2]
  refine ⟨rfl, List.cons_ne_nil first more, fun h => ⟨rfl, rfl⟩, rfl, rfl, rfl, ?_⟩
  show 1 ≤ (first :: more).length
  simp

/-- The first enumerated (index, (chunk, constituent segments)) entry
produced on the worked-example transcript with target sample 22. -/
def exEnumPair : ℕ × (Chunk × List Segment) :=
  (0, (⟨0, 0, 25, 25, "a b c", 3⟩,
    [⟨0, 10, "a"⟩, ⟨10, 10, "b"⟩, ⟨20, 5, "c"⟩]))

/-- Witness for C8: the first enumerated chunk of the worked example. -/
theorem chunk_record_invariant_w :
    (exEnumPair ∈ (chunk_runs exampleSegments 20 30 (fun _ => 22)).enum) ∧
    exEnumPair.2.1.chunk_id = exEnumPair.1 :=
  ⟨by with_unfolding_all decide,
   (chunk_record_invariant exampleSegments 20 30 (fun _ => 22) exEnumPair
      (by with_unfolding_all decide)).1⟩

/-- C9 (confirmed). `chunk_smart_duration` is deterministic given a
fixed random sequence: two invocations on the same segments and bounds
whose randomness sources yield the same sequence of target-duration
samples produce identical chunk lists. -/
theorem chunk_determinism (segments : List Segment) (min_duration max_duration : ℚ)
    (targets₁ targets₂ : ℕ → ℚ) (h : ∀ n, targets₁ n = targets₂ n) :
    chunk_smart_duration segments min_duration max_duration targets₁
      = chunk_smart_duration segments min_duration max_duration targets₂ := by
  have ht : targets₁ = targets₂ := funext h
  rw [ht]

/-- Witness for C9 at the worked example with the constant sample 22. -/
theorem chunk_determinism_w :
    (∀ n : ℕ, (fun _ : ℕ => (22:ℚ)) n = (fun _ : ℕ => (22:ℚ)) n) ∧
    chunk_smart_duration exampleSegments 20 30 (fun _ => 22)
      = chunk_smart_duration exampleSegments 20 30 (fun _ => 22) :=
  ⟨fun _ => rfl, chunk_determinism exampleSegments 20 30 _ _ (fun _ => rfl)⟩

/-! ## Download pipeline and batch orchestrator (lines 246-341) -/

/-- Outcome of the fetch collaborator for one identifier, as observed by
`download_transcript_chunks`: either an ordered segment list
(`api.fetch(video_id, languages=['bn'])` followed by `list(transcript)`)
or a raised exception with message `str(e)`. -/
inductive FetchOutcome
  | ok (segments : List Segment)
  | exn (msg : String)
deriving DecidableEq

/-- The result dict of `download_transcript_chunks`: either
`{'success': True, 'chunks': n, 'avg_chunk_duration': q}` or
`{'success': False, 'error': e, 'chunks': 0}`. -/
inductive DLResult
  | success (chunks : ℕ) (avg_chunk_duration : ℚ)
  | failure (error : String)
deriving DecidableEq

/-- Python's substring test `needle in hay`. -/
def strContains (hay needle : String) : Bool :=
  decide (needle.toList <:+: hay.toList)

/-- The rate-limit classification at line 287 of the source:
`"429" in error_msg or "Too Many Requests" in error_msg`. -/
def isRateLimitMsg (error_msg : String) : Bool :=
  strContains error_msg "429" || strContains error_msg "Too Many Requests"

/-- `MIN_CHUNK_DURATION` (line 31). -/
def MIN_CHUNK_DURATION : ℚ := 20

/-- `MAX_CHUNK_DURATION` (line 32). -/
def MAX_CHUNK_DURATION : ℚ := 30

/-- `download_transcript_chunks(video_id)` (lines 246-289), as a
function of the fetch collaborator's outcome and the injected
target-duration sample stream. The artifact writes (metadata and
per-chunk json/txt files) have no bearing on the returned result and
are not modelled; an exception is classified at line 287: a message
containing a too-many-requests indicator yields `'RateLimited'`, any
other message is truncated to its first 100 characters. A successful
fetch with zero segments is a failure `'No segments'`. -/
def download_transcript_chunks (targets : ℕ → ℚ) (fetch : String → FetchOutcome)
    (video_id : String) : DLResult :=
  match fetch video_id with
  | .ok segments =>
    if segments = [] then .failure "No segments"
    else
      let chunks := chunk_smart_duration segments MIN_CHUNK_DURATION MAX_CHUNK_DURATION targets
      let chunk_durations := chunks.map Chunk.duration
      let avg_duration : ℚ :=
        if chunk_durations = [] then 0
        else chunk_durations.sum / (chunk_durations.length : ℚ)
      .success chunks.length avg_duration
  | .exn error_msg =>
    if isRateLimitMsg error_msg then .failure "RateLimited"
    else .failure (error_msg.take 100)

/-- State produced by the main loop (lines 298-333): the completed set
`downloaded`, the `processed` counter, the `rate_limited` flag, and the
trace of identifiers for which `download_transcript_chunks` was invoked,
in invocation order. The prints, the politeness sleep and the periodic
progress saves do not affect this state. -/
structure RunResult where
  downloaded : Finset String
  processed : ℕ
  rate_limited : Bool
  attempted : List String
deriving DecidableEq

/-- The `for i, video_id in enumerate(batch_videos)` loop (lines
301-333): on success the identifier is added to `downloaded` and
`processed` is incremented; on a `'RateLimited'` failure the
`rate_limited` flag is set and the loop breaks before incrementing
`processed`; on any other failure the error is printed and the loop
moves on, incrementing `processed`. -/
def mainLoop (dl : String → DLResult) :
    List String → Finset String → ℕ → RunResult
  | [], downloaded, processed => ⟨downloaded, processed, false, []⟩
  | video_id :: rest, downloaded, processed =>
    match dl video_id with
    | .success _ _ =>
      let r := mainLoop dl rest (insert video_id downloaded) (processed + 1)
      { r with attempted := video_id :: r.attempted }
    | .failure error =>
      if error = "RateLimited" then
        ⟨downloaded, processed, true, [video_id]⟩
      else
        let r := mainLoop dl rest downloaded (processed + 1)
        { r with attempted := video_id :: r.attempted }

/-! ## Completion reconciliation (lines 148-163) -/

/-- One entry of `os.listdir(OUTPUT_DIR)` together with the
`os.path.isdir` observation for it. -/
structure DirEntry where
  name : String
  isDir : Bool
deriving DecidableEq

/-- The `existing_folders` scan (lines 154-161): the names of the
entries of the output directory that are directories and are not named
`.git`. -/
def existing_folders (entries : List DirEntry) : Finset String :=
  ((entries.filter (fun e => e.isDir && e.name != ".git")).map DirEntry.name).toFinset

/-- Lines 148-163: the persisted completion log (`progress['completed']`)
turned into a set and unioned with the filesystem scan
(`downloaded = downloaded.union(existing_folders)`). -/
def reconcile (completed_log : List String) (entries : List DirEntry) : Finset String :=
  completed_log.toFinset ∪ existing_folders entries

/-! ## Checkpoint writes (lines 323-329 and 336-341) -/

/-- Primitive filesystem steps of a checkpoint write. `truncate` is the
effect of `open(path, 'w')` on an existing or new file; `append` is the
subsequent streaming of serialized data into the open handle;
an interruption can occur between any two steps. -/
inductive FsOp
  | truncate (path : String)
  | append (path : String) (data : String)

/-- Effect of one primitive step on the file contents map. -/
def applyOp (fs : String → Option String) : FsOp → String → Option String
  | .truncate p, q => if q = p then some "" else fs q
  | .append p d, q => if q = p then some (((fs p).getD "") ++ d) else fs q

/-- Run a sequence of primitive filesystem steps. -/
def runOps (fs : String → Option String) (ops : List FsOp) : String → Option String :=
  ops.foldl applyOp fs

/-- The step sequence of one progress save in the source — both the
periodic mid-run save (lines 323-329) and the unconditional final save
(lines 336-341) are `with open(progress_file, 'w') as f: json.dump(...)`:
truncate the progress file in place, then write the new payload into
it. There is no write-to-temporary or rename step. -/
def save_progress_ops (progress_file payload : String) : List FsOp :=
  [.truncate progress_file, .append progress_file payload]

/-- A filesystem in which the progress file holds a previously valid
checkpoint. -/
def oldCheckpointFs : String → Option String :=
  fun q => if q = "bangla_transcripts/download_progress.json" then some "OLD" else none

/-- Whether a download result dict has `'success': True`. -/
def DLResult.isSuccess : DLResult → Bool
  | .success _ _ => true
  | .failure _ => false

/-- An exception whose message carries a too-many-requests indicator is
classified `'RateLimited'` by `download_transcript_chunks`. -/
theorem download_classifies_rate_limit (targets : ℕ → ℚ) (fetch : String → FetchOutcome)
    (video_id msg : String) (hf : fetch video_id = .exn msg)
    (hrl : isRateLimitMsg msg = true) :
    download_transcript_chunks targets fetch video_id = .failure "RateLimited" := by
  simp [download_transcript_chunks, hf, hrl]

/-- The completed set only grows during the main loop. -/
theorem mainLoop_downloaded_mono (dl : String → DLResult) :
    ∀ (batch : List String) (d : Finset String) (p : ℕ),
      d ⊆ (mainLoop dl batch d p).downloaded := by
  intro batch
  induction batch with
  | nil => intro d p; exact Finset.Subset.refl d
  | cons v rest ih =>
    intro d p
    simp only [mainLoop]
    cases hdl : dl v with
    | success c a =>
      exact (Finset.subset_insert v d).trans (ih (insert v d) (p + 1))
    | failure e =>
      by_cases he : e = "RateLimited"
      · simp [he]
      · simpa [he] using ih d (p + 1)

/-- Behaviour of the main loop when the download of the `k`-th
identifier of the batch window is the first to be classified
`'RateLimited'`: the loop attempts exactly the first `k + 1`
identifiers, sets the `rate_limited` flag, leaves the `k`-th identifier
unmarked, and has marked every earlier successful identifier. -/
theorem mainLoop_rate_limit (dl : String → DLResult) :
    ∀ (batch : List String) (d : Finset String) (p k : ℕ) (hk : k < batch.length),
      batch.Nodup →
      batch.get ⟨k, hk⟩ ∉ d →
      dl (batch.get ⟨k, hk⟩) = .failure "RateLimited" →
      (∀ (j : ℕ) (hj : j < batch.length), j < k →
        dl (batch.get ⟨j, hj⟩) ≠ .failure "RateLimited") →
      (mainLoop dl batch d p).attempted = batch.take (k + 1) ∧
      (mainLoop dl batch d p).rate_limited = true ∧
      batch.get ⟨k, hk⟩ ∉ (mainLoop dl batch d p).downloaded ∧
      (∀ (j : ℕ) (hj : j < batch.length), j < k → ∀ c a,
        dl (batch.get ⟨j, hj⟩) = .success c a →
        batch.get ⟨j, hj⟩ ∈ (mainLoop dl batch d p).downloaded) := by
  intro batch
  induction batch with
  | nil => intro d p k hk; exact absurd hk (Nat.not_lt_zero k)
  | cons v rest ih =>
    intro d p k hk hnd hkd hkrl hprev
    cases k with
    | zero =>
      have hv : (v :: rest).get ⟨0, hk⟩ = v := rfl
      rw [hv] at hkd hkrl
      rw [show mainLoop dl (v :: rest) d p = ⟨d, p, true, [v]⟩ from by
        simp [mainLoop, hkrl]]
      exact ⟨by simp, rfl, hkd, fun j hj hj0 => absurd hj0 (Nat.not_lt_zero j)⟩
    | succ k =>
      have hkl : k < rest.length := Nat.lt_of_succ_lt_succ hk
      have hget : (v :: rest).get ⟨k + 1, hk⟩ = rest.get ⟨k, hkl⟩ := rfl
      have hvne : dl v ≠ DLResult.failure "RateLimited" :=
        hprev 0 (Nat.succ_pos rest.length) (Nat.succ_pos k)
      have hndr := List.nodup_cons.mp hnd
      have hprev' : ∀ (j : ℕ) (hj : j < rest.length), j < k →
          dl (rest.get ⟨j, hj⟩) ≠ DLResult.failure "RateLimited" := by
        intro j hj hjk
        exact hprev (j + 1) (Nat.succ_lt_succ hj) (Nat.succ_lt_succ hjk)
      have hknotv : rest.get ⟨k, hkl⟩ ≠ v := by
        intro he
        exact hndr.1 (he ▸ List.get_mem rest k hkl)
      cases hdl : dl v with
      | success c a =>
        have hnotd2 : rest.get ⟨k, hkl⟩ ∉ insert v d := by
          rw [Finset.mem_insert]
          push_neg
          exact ⟨hknotv, hget ▸ hkd⟩
        have ihres := ih (insert v d) (p + 1) k hkl hndr.2 hnotd2
          (hget ▸ hkrl) hprev'
        simp only [mainLoop, hdl]
        refine ⟨?_, ihres.2.1, ?_, ?_⟩
        · simp [ihres.1, List.take_succ_cons]
        · rw [hget]
          exact ihres.2.2.1
        · intro j hj hjk c' a' hsucc
          cases j with
          | zero =>
            exact mainLoop_downloaded_mono dl rest (insert v d) (p + 1)
              (Finset.mem_insert_self v d)
          | succ j =>
            have hjl : j < rest.length := Nat.lt_of_succ_lt_succ hj
            exact ihres.2.2.2 j hjl (Nat.lt_of_succ_lt_succ hjk) c' a' hsucc
      | failure e =>
        have hne : e ≠ "RateLimited" := by
          rintro rfl
          exact hvne hdl
        have ihres := ih d (p + 1) k hkl hndr.2 (hget ▸ hkd) (hget ▸ hkrl) hprev'
        simp only [mainLoop, hdl, if_neg hne]
        refine ⟨?_, ihres.2.1, ?_, ?_⟩
        · simp [ihres.1, List.take_succ_cons]
        · rw [hget]
          exact ihres.2.2.1
        · intro j hj hjk c' a' hsucc
          cases j with
          | zero => exact absurd hsucc (by simp [hdl])
          | succ j =>
            have hjl : j < rest.length := Nat.lt_of_succ_lt_succ hj
            exact ihres.2.2.2 j hjl (Nat.lt_of_succ_lt_succ hjk) c' a' hsucc

/-- C3 (confirmed). If, while processing the batch window in order, the
`k`-th identifier's download fails with a rate-limit condition (the
fetch raised with a message containing a too-many-requests indicator),
and no earlier download was classified rate-limited, then the loop
attempted exactly the first `k + 1` identifiers (so no identifier after
the `k`-th is ever attempted in this run), the run is marked
`rate_limited`, the `k`-th identifier is not marked complete, and every
earlier identifier whose download succeeded was marked complete. -/
theorem rate_limit_halt (targets : ℕ → ℚ) (fetch : String → FetchOutcome)
    (batch : List String) (downloaded₀ : Finset String) (k : ℕ) (hk : k < batch.length)
    (hnodup : batch.Nodup)
    (hnew : batch.get ⟨k, hk⟩ ∉ downloaded₀)
    (msg : String) (hmsg : fetch (batch.get ⟨k, hk⟩) = .exn msg)
    (hrl : isRateLimitMsg msg = true)
    (hprev : ∀ (j : ℕ) (hj : j < batch.length), j < k →
      download_transcript_chunks targets fetch (batch.get ⟨j, hj⟩)
        ≠ .failure "RateLimited") :
    (mainLoop (download_transcript_chunks targets fetch) batch downloaded₀ 0).attempted
      = batch.take (k + 1) ∧
    (mainLoop (download_transcript_chunks targets fetch) batch downloaded₀ 0).rate_limited
      = true ∧
    batch.get ⟨k, hk⟩
      ∉ (mainLoop (download_transcript_chunks targets fetch) batch downloaded₀ 0).downloaded ∧
    (∀ (j : ℕ) (hj : j < batch.length), j < k → ∀ c a,
      download_transcript_chunks targets fetch (batch.get ⟨j, hj⟩) = .success c a →
      batch.get ⟨j, hj⟩
        ∈ (mainLoop (download_transcript_chunks targets fetch) batch downloaded₀ 0).downloaded) :=
  mainLoop_rate_limit _ batch downloaded₀ 0 k hk hnodup hnew
    (download_classifies_rate_limit targets fetch _ msg hmsg hrl) hprev

/-- Batch window of the rate-limit witness scenario. -/
def wBatch : List String := ["v1", "v2", "v3", "v4"]

/-- Fetch collaborator of the rate-limit witness scenario: the third
identifier hits a 429, the others return a one-segment transcript. -/
def wFetch : String → FetchOutcome := fun v =>
  if v = "v3" then .exn "HTTP Error 429: Too Many Requests"
  else .ok [⟨0, 25, "hello"⟩]

/-- Witness for C3: rate-limited on the third of four identifiers. -/
theorem rate_limit_halt_w :
    wBatch.Nodup ∧
    (mainLoop (download_transcript_chunks (fun _ => 22) wFetch) wBatch ∅ 0).attempted
      = wBatch.take 3 ∧
    (mainLoop (download_transcript_chunks (fun _ => 22) wFetch) wBatch ∅ 0).rate_limited
      = true ∧
    "v3" ∉ (mainLoop (download_transcript_chunks (fun _ => 22) wFetch) wBatch ∅ 0).downloaded := by
  have h := rate_limit_halt (fun _ => 22) wFetch wBatch ∅ 2
    (by with_unfolding_all decide) (by with_unfolding_all decide)
    (by with_unfolding_all decide) "HTTP Error 429: Too Many Requests"
    (by with_unfolding_all decide) (by with_unfolding_all decide)
    (by with_unfolding_all decide)
  exact ⟨by with_unfolding_all decide, h.1, h.2.1, h.2.2.1⟩

/-- Behaviour of the main loop when no download in the window is
classified `'RateLimited'`: every identifier is attempted in order, the
flag stays unset, and the completed set gains exactly the successful
identifiers. -/
theorem mainLoop_no_rate_limit (dl : String → DLResult) :
    ∀ (batch : List String) (d : Finset String) (p : ℕ),
      (∀ v ∈ batch, dl v ≠ .failure "RateLimited") →
      (mainLoop dl batch d p).attempted = batch ∧
      (mainLoop dl batch d p).rate_limited = false ∧
      (mainLoop dl batch d p).downloaded
        = d ∪ (batch.filter (fun v => (dl v).isSuccess)).toFinset := by
  intro batch
  induction batch with
  | nil => intro d p h; exact ⟨rfl, rfl, by simp [mainLoop]⟩
  | cons v rest ih =>
    intro d p h
    have hv : dl v ≠ DLResult.failure "RateLimited" := h v (List.mem_cons_self v rest)
    have hr : ∀ u ∈ rest, dl u ≠ DLResult.failure "RateLimited" :=
      fun u hu => h u (List.mem_cons_of_mem v hu)
    cases hdl : dl v with
    | success c a =>
      have ihres := ih (insert v d) (p + 1) hr
      simp only [mainLoop, hdl]
      refine ⟨by simp [ihres.1], ihres.2.1, ?_⟩
      rw [ihres.2.2]
      rw [List.filter_cons_of_pos (by simp [hdl, DLResult.isSuccess])]
      simp [Finset.insert_union, Finset.union_insert]
    | failure e =>
      have hne : e ≠ "RateLimited" := by
        rintro rfl
        exact hv hdl
      have ihres := ih d (p + 1) hr
      simp only [mainLoop, hdl, if_neg hne]
      refine ⟨by simp [ihres.1], ihres.2.1, ?_⟩
      rw [ihres.2.2]
      rw [List.filter_cons_of_neg (by simp [hdl, DLResult.isSuccess])]

/-- C7 (confirmed). For every per-identifier failure that is not
rate-limiting — including a fetch that succeeds with zero segments,
which is treated as the failure `'No segments'` — the identifier is not
marked complete, the failure reason is the exception message truncated
to 100 characters, and the orchestrator attempts every identifier of
the window exactly once (it proceeds past the failure, never halting
the batch and never retrying within the run). -/
theorem per_identifier_failure (targets : ℕ → ℚ) (fetch : String → FetchOutcome)
    (batch : List String) (downloaded₀ : Finset String) (hnodup : batch.Nodup)
    (hnoRL : ∀ v ∈ batch,
      download_transcript_chunks targets fetch v ≠ .failure "RateLimited")
    (video_id : String) (hmem : video_id ∈ batch) (hnew : video_id ∉ downloaded₀)
    (e : String)
    (hfail : download_transcript_chunks targets fetch video_id = .failure e) :
    (mainLoop (download_transcript_chunks targets fetch) batch downloaded₀ 0).attempted
      = batch ∧
    (mainLoop (download_transcript_chunks targets fetch) batch downloaded₀ 0).rate_limited
      = false ∧
    video_id
      ∉ (mainLoop (download_transcript_chunks targets fetch) batch downloaded₀ 0).downloaded ∧
    (mainLoop (download_transcript_chunks targets fetch) batch downloaded₀ 0).attempted.count
      video_id = 1 ∧
    (∀ msg, fetch video_id = .exn msg → e = msg.take 100) ∧
    (fetch video_id = .ok [] → e = "No segments") := by
  obtain ⟨hatt, hflag, hdown⟩ :=
    mainLoop_no_rate_limit (download_transcript_chunks targets fetch) batch downloaded₀ 0 hnoRL
  refine ⟨hatt, hflag, ?_, ?_, ?_, ?_⟩
  · rw [hdown]
    rw [Finset.mem_union]
    push_neg
    refine ⟨hnew, ?_⟩
    rw [List.mem_toFinset, List.mem_filter]
    rintro ⟨-, hsucc⟩
    rw [hfail] at hsucc
    simp [DLResult.isSuccess] at hsucc
  · rw [hatt]
    exact List.count_eq_one_of_mem hnodup hmem
  · intro msg hmsg
    have hnv := hnoRL video_id hmem
    simp only [download_transcript_chunks, hmsg] at hfail hnv
    by_cases hrl : isRateLimitMsg msg = true
    · rw [if_pos hrl] at hnv
      exact absurd rfl hnv
    · rw [if_neg hrl] at hfail
      rw [DLResult.failure.injEq] at hfail
      exact hfail.symm
  · intro hok
    simp only [download_transcript_chunks, hok] at hfail
    simp at hfail
    exact hfail.symm

/-- Batch window of the per-identifier-failure witness scenario. -/
def wBatch7 : List String := ["a1", "b2"]

/-- Fetch collaborator of the per-identifier-failure witness: the first
identifier raises a non-rate-limit error, the second succeeds. -/
def wFetch7 : String → FetchOutcome := fun v =>
  if v = "a1" then .exn "boom" else .ok [⟨0, 25, "x"⟩]

set_option maxRecDepth 8000 in
/-- Witness for C7: a non-rate-limit failure on the first of two
identifiers. -/
theorem per_identifier_failure_w :
    wBatch7.Nodup ∧
    (mainLoop (download_transcript_chunks (fun _ => 22) wFetch7) wBatch7 ∅ 0).attempted
      = wBatch7 ∧
    (mainLoop (download_transcript_chunks (fun _ => 22) wFetch7) wBatch7 ∅ 0).rate_limited
      = false ∧
    "a1" ∉ (mainLoop (download_transcript_chunks (fun _ => 22) wFetch7) wBatch7 ∅ 0).downloaded := by
  have h := per_identifier_failure (fun _ => 22) wFetch7 wBatch7 ∅
    (by with_unfolding_all decide) (by with_unfolding_all decide) "a1"
    (by with_unfolding_all decide) (by with_unfolding_all decide) "boom"
    (by with_unfolding_all decide)
  exact ⟨by with_unfolding_all decide, h.1, h.2.1, h.2.2.1⟩

/-- C4 (confirmed). The reconciled completed set is the set union of
the persisted completion log and the names listed by the filesystem
scan: an identifier appearing in either source is in the reconciled set,
hence never considered incomplete. -/
theorem union_reconciliation (completed_log : List String) (entries : List DirEntry)
    (hdirs : ∀ e ∈ entries, e.isDir = true ∧ e.name ≠ ".git") :
    reconcile completed_log entries
      = completed_log.toFinset ∪ (entries.map DirEntry.name).toFinset ∧
    (∀ x, (x ∈ completed_log ∨ ∃ e ∈ entries, e.name = x) →
      x ∈ reconcile completed_log entries) := by
  have hf : entries.filter (fun e => e.isDir && e.name != ".git") = entries := by
    rw [List.filter_eq_self]
    intro e he
    have hd := hdirs e he
    simp [hd.1, hd.2]
  constructor
  · simp [reconcile, existing_folders, hf]
  · intro x hx
    rcases hx with hx | ⟨e, he, hn⟩
    · exact Finset.mem_union_left _ (List.mem_toFinset.mpr hx)
    · apply Finset.mem_union_right
      rw [existing_folders, hf, List.mem_toFinset, List.mem_map]
      exact ⟨e, he, hn⟩

/-- Filesystem listing of the reconciliation witness: two completed
output directories. -/
def wEntries : List DirEntry := [⟨"b", true⟩, ⟨"c", true⟩]

/-- Witness for C4: log containing only a, listing containing b and c;
the reconciled set is the union, i.e. precisely the three names. -/
theorem union_reconciliation_w :
    (∀ e ∈ wEntries, e.isDir = true ∧ e.name ≠ ".git") ∧
    reconcile ["a"] wEntries
      = (["a"] : List String).toFinset ∪ (wEntries.map DirEntry.name).toFinset :=
  ⟨by with_unfolding_all decide,
    (union_reconciliation ["a"] wEntries (by with_unfolding_all decide)).1⟩

/-- C10 (confirmed). The filesystem scan adds exactly the names of the
directory entries that are directories and are not named `.git`:
non-directory entries are ignored, and `.git` is never treated as a
completed identifier. -/
theorem existing_folders_spec (entries : List DirEntry) (x : String) :
    x ∈ existing_folders entries ↔
      ((∃ e ∈ entries, e.name = x ∧ e.isDir = true) ∧ x ≠ ".git") := by
  simp only [existing_folders, List.mem_toFinset, List.mem_map, List.mem_filter]
  constructor
  · rintro ⟨e, ⟨he, hp⟩, rfl⟩
    rw [Bool.and_eq_true, bne_iff_ne] at hp
    exact ⟨⟨e, he, rfl, hp.1⟩, hp.2⟩
  · rintro ⟨⟨e, he, rfl, hd⟩, hne⟩
    refine ⟨e, ⟨he, ?_⟩, rfl⟩
    rw [Bool.and_eq_true, bne_iff_ne]
    exact ⟨hd, hne⟩

/-- C5 counterexample. The source's checkpoint write truncates the
progress file in place (`open(progress_file, 'w')` followed by
`json.dump`), with no write-to-temporary or rename: interrupting after
the truncating open leaves the file empty — neither the previously
valid checkpoint nor the new payload — so a checkpoint write does not
follow the claimed write-new-then-replace discipline and an interruption
mid-write corrupts the previously valid checkpoint. -/
theorem checkpoint_not_atomic :
    oldCheckpointFs "bangla_transcripts/download_progress.json" = some "OLD" ∧
    runOps oldCheckpointFs
        ((save_progress_ops "bangla_transcripts/download_progress.json" "NEW").take 1)
        "bangla_transcripts/download_progress.json" = some "" ∧
    (some "" : Option String) ≠ some "OLD" ∧
    (some "" : Option String) ≠ some "NEW" := by
  refine ⟨rfl, ?_, by decide, by decide⟩
  with_unfolding_all decide

/-- C5 (amended, proved). Every checkpoint write of the completion
state — the periodic mid-run save and the unconditional end-of-run save
alike — overwrites the progress file in place: running the write to
completion leaves the new payload, but an interruption after the
truncating open leaves an empty file rather than the previously valid
checkpoint, so the write is not atomic (no write-new-then-replace
discipline is present). -/
theorem checkpoint_overwrite_in_place (fs : String → Option String)
    (progress_file payload : String) :
    runOps fs (save_progress_ops progress_file payload) progress_file = some payload ∧
    runOps fs ((save_progress_ops progress_file payload).take 1) progress_file = some "" := by
  constructor
  · show applyOp (applyOp fs (.truncate progress_file)) (.append progress_file payload)
      progress_file = some payload
    simp [applyOp]
  · show applyOp fs (.truncate progress_file) progress_file = some ""
    simp [applyOp]

end AutoSync
